import Mathlib

/-!
Verification of `src/base/VulkanScreenshot.hpp` (namespace `vks`):
a shallow embedding of `Screenshot::save` (GPU frame capture to a binary
PPM file) and of the `MemoryTracker` allocation-accounting facility,
together with proofs of the specified properties.

Device-reported quantities (format capabilities, subresource layout,
staging-memory contents after the submitted transfer) are inputs of the
model, collected in an `Env` record; the function body is translated
line by line from the source.  `VkDeviceSize`/`uint32_t` values are
modeled as `Nat`; the claims under consideration keep all arithmetic in
range, so no wraparound is exercised.
-/

namespace VulkanScreenshot

/-- Vulkan format feature flag `VK_FORMAT_FEATURE_BLIT_SRC_BIT` (0x0400). -/
def VK_FORMAT_FEATURE_BLIT_SRC_BIT : Nat := 0x0400

/-- Vulkan format feature flag `VK_FORMAT_FEATURE_BLIT_DST_BIT` (0x0800). -/
def VK_FORMAT_FEATURE_BLIT_DST_BIT : Nat := 0x0800

/-- Vulkan access flag `VK_ACCESS_TRANSFER_READ_BIT` (0x0800). -/
def VK_ACCESS_TRANSFER_READ_BIT : Nat := 0x0800

/-- Vulkan access flag `VK_ACCESS_TRANSFER_WRITE_BIT` (0x1000). -/
def VK_ACCESS_TRANSFER_WRITE_BIT : Nat := 0x1000

/-- Vulkan access flag `VK_ACCESS_MEMORY_READ_BIT` (0x8000). -/
def VK_ACCESS_MEMORY_READ_BIT : Nat := 0x8000

/-- The pixel formats relevant to `Screenshot::save`: the three members of
the BGR family probed for the swizzle decision, the fixed RGBA staging
format, and a catch-all for every other `VkFormat` value. -/
inductive VkFormat where
  | R8G8B8A8_UNORM
  | B8G8R8A8_UNORM
  | B8G8R8A8_SNORM
  | B8G8R8A8_SRGB
  | otherFormat (code : Nat)
deriving DecidableEq, Repr

/-- `VkFormatProperties`: the three feature bitmasks reported by
`vkGetPhysicalDeviceFormatProperties`. -/
structure VkFormatProperties where
  linearTilingFeatures : Nat
  optimalTilingFeatures : Nat
  bufferFeatures : Nat
deriving DecidableEq, Repr

/-- Image layouts appearing in the barriers recorded by `Screenshot::save`. -/
inductive VkImageLayout where
  | undefined
  | transferDstOptimal
  | transferSrcOptimal
  | general
  | presentSrcKHR
deriving DecidableEq, Repr

/-- Which of the two images a recorded command refers to: the caller's
source image or the temporary staging (`dstImage`) image. -/
inductive ImgRef where
  | source
  | staging
deriving DecidableEq, Repr

/-- A command recorded into the one-shot command buffer `copyCmd`. -/
inductive Command where
  | imageMemoryBarrier (img : ImgRef) (srcAccessMask dstAccessMask : Nat)
      (oldLayout newLayout : VkImageLayout)
  | blitImage (w h : Nat)
  | copyImage (w h : Nat)
deriving DecidableEq, Repr

/-- Host-visible actions performed by `Screenshot::save`, in program order:
resource management calls, the recorded command buffer, submission, memory
mapping, and the file operations. -/
inductive Action where
  | createImage
  | allocateMemory
  | bindImageMemory
  | cmd (c : Command)
  | flushCommandBuffer
  | mapMemory
  | writeFile (bytes : List Nat)
  | closeFile
  | unmapMemory
  | freeMemory
  | destroyImage
  | ret (b : Bool)
deriving DecidableEq, Repr

/-- The environment of one `Screenshot::save` call: its parameters plus
every device-reported value the body reads.  `mem` is the byte content of
the mapped staging memory after the submitted transfer completed (indexed
from the start of the mapping); `subresOffset` and `rowPitch` are the
fields of the `VkSubresourceLayout` reported for the staging image;
`fileOpens` tells whether `std::ofstream` can open the output path. -/
structure Env where
  formatProps : VkFormat → VkFormatProperties
  srcFormat : VkFormat
  width : Nat
  height : Nat
  subresOffset : Nat
  rowPitch : Nat
  mem : Nat → Nat
  fileOpens : Bool

/-- Lines 29–40: `supportsBlit` starts `true` and is cleared if the source
format lacks `BLIT_SRC` under optimal tiling or if `R8G8B8A8_UNORM` lacks
`BLIT_DST` under linear tiling. -/
def supportsBlit (env : Env) : Bool :=
  let s := true
  let s := if (env.formatProps env.srcFormat).optimalTilingFeatures &&&
      VK_FORMAT_FEATURE_BLIT_SRC_BIT = 0 then false else s
  let s := if (env.formatProps VkFormat.R8G8B8A8_UNORM).linearTilingFeatures &&&
      VK_FORMAT_FEATURE_BLIT_DST_BIT = 0 then false else s
  s

/-- Lines 151–155: the BGR-family list `formatsBGR`. -/
def formatsBGR : List VkFormat :=
  [VkFormat.B8G8R8A8_SRGB, VkFormat.B8G8R8A8_UNORM, VkFormat.B8G8R8A8_SNORM]

/-- Lines 151–155: `colorSwizzle` is computed only when the blit path is
unavailable, as membership of the source format in `formatsBGR`. -/
def colorSwizzle (env : Env) : Bool :=
  if supportsBlit env then false else formatsBGR.contains env.srcFormat

/-- Lines 73–129: the command sequence recorded into `copyCmd`, in order:
staging undefined→transfer-dst barrier, source present→transfer-src
barrier, the transfer (blit if supported, copy otherwise), staging
transfer-dst→general barrier, source transfer-src→present barrier. -/
def recordedCommands (env : Env) : List Command :=
  [ Command.imageMemoryBarrier ImgRef.staging 0 VK_ACCESS_TRANSFER_WRITE_BIT
      VkImageLayout.undefined VkImageLayout.transferDstOptimal,
    Command.imageMemoryBarrier ImgRef.source VK_ACCESS_MEMORY_READ_BIT
      VK_ACCESS_TRANSFER_READ_BIT
      VkImageLayout.presentSrcKHR VkImageLayout.transferSrcOptimal,
    (if supportsBlit env then Command.blitImage env.width env.height
     else Command.copyImage env.width env.height),
    Command.imageMemoryBarrier ImgRef.staging VK_ACCESS_TRANSFER_WRITE_BIT
      VK_ACCESS_MEMORY_READ_BIT
      VkImageLayout.transferDstOptimal VkImageLayout.general,
    Command.imageMemoryBarrier ImgRef.source VK_ACCESS_TRANSFER_READ_BIT
      VK_ACCESS_MEMORY_READ_BIT
      VkImageLayout.transferSrcOptimal VkImageLayout.presentSrcKHR ]

/-- Effect of one recorded command on the (layout, access mask) state of
the image `img`: a barrier naming `img` moves it to its new layout and
destination access mask; every other command leaves it unchanged. -/
def applyCommandToImg (img : ImgRef) (st : VkImageLayout × Nat) :
    Command → VkImageLayout × Nat
  | Command.imageMemoryBarrier i _ dstAccess _ newLayout =>
      if i = img then (newLayout, dstAccess) else st
  | _ => st

/-- The (layout, access mask) state of image `img` after executing a
command list from initial state `st`. -/
def trackImg (img : ImgRef) (st : VkImageLayout × Nat) (cmds : List Command) :
    VkImageLayout × Nat :=
  cmds.foldl (applyCommandToImg img) st

/-- The bytes of a string, for modeling `operator<<` on an `ofstream`. -/
def strBytes (s : String) : List Nat := s.toList.map Char.toNat

/-- Line 149: the header `"P6\n" << width << "\n" << height << "\n" << 255
<< "\n"`, as the byte sequence written to the file. -/
def headerBytes (width height : Nat) : List Nat :=
  strBytes "P6\n" ++ strBytes (Nat.repr width) ++ strBytes "\n" ++
  strBytes (Nat.repr height) ++ strBytes "\n" ++
  strBytes (Nat.repr 255) ++ strBytes "\n"

/-- Lines 159–167 (inner loop body): the 3 bytes written for the pixel at
column `x` of the row starting at byte `rowBase`; swizzled order writes
bytes 2, 1, 0 of the 4-byte pixel, otherwise bytes 0, 1, 2 are written
verbatim. -/
def pixelBytes (cs : Bool) (mem : Nat → Nat) (rowBase x : Nat) : List Nat :=
  if cs then
    [mem (rowBase + 4 * x + 2), mem (rowBase + 4 * x + 1), mem (rowBase + 4 * x)]
  else
    [mem (rowBase + 4 * x), mem (rowBase + 4 * x + 1), mem (rowBase + 4 * x + 2)]

/-- Lines 159–168 (inner loop): the bytes written for one row of `width`
pixels starting at byte `rowBase` of the mapped memory. -/
def rowBytes (cs : Bool) (mem : Nat → Nat) (rowBase width : Nat) : List Nat :=
  (List.range width).flatMap (pixelBytes cs mem rowBase)

/-- Lines 157–170 (outer loop): the pixel payload written after the header;
row `y` starts at `subresOffset + y * rowPitch` (the `data` pointer starts
at the subresource offset and advances by `rowPitch` per row). -/
def payload (env : Env) : List Nat :=
  (List.range env.height).flatMap (fun y =>
    rowBytes (colorSwizzle env) env.mem (env.subresOffset + y * env.rowPitch) env.width)

/-- Result of one `Screenshot::save` call: the boolean return value, the
content of the output file (`none` when the file could not be opened and
nothing was written), and the trace of host-visible actions. -/
structure SaveResult where
  success : Bool
  file : Option (List Nat)
  trace : List Action
deriving DecidableEq, Repr

/-- Lines 18–179: `Screenshot::save`, given that all device operations
succeed (the `VK_CHECK_RESULT`-guarded calls): create/allocate/bind the
staging image, record and flush the command buffer, map the memory, then
either fail to open the file — releasing the staging resources and
returning `false` — or write the header and payload, close, release, and
return `true`. -/
def save (env : Env) : SaveResult :=
  let pre : List Action :=
    [Action.createImage, Action.allocateMemory, Action.bindImageMemory] ++
    (recordedCommands env).map Action.cmd ++
    [Action.flushCommandBuffer, Action.mapMemory]
  if env.fileOpens then
    let out := headerBytes env.width env.height ++ payload env
    { success := true
      file := some out
      trace := pre ++ [Action.writeFile out, Action.closeFile,
        Action.unmapMemory, Action.freeMemory, Action.destroyImage,
        Action.ret true] }
  else
    { success := false
      file := none
      trace := pre ++ [Action.unmapMemory, Action.freeMemory,
        Action.destroyImage, Action.ret false] }

/-- Liveness of the temporary resources of one call: the staging image,
its backing memory, and whether that memory is currently mapped. -/
structure ResState where
  stagingImageAlive : Bool
  stagingMemoryAlive : Bool
  memoryMapped : Bool
deriving DecidableEq, Repr

/-- Effect of one action on the staging-resource state. -/
def stepRes (st : ResState) : Action → ResState
  | Action.createImage => { st with stagingImageAlive := true }
  | Action.allocateMemory => { st with stagingMemoryAlive := true }
  | Action.mapMemory => { st with memoryMapped := true }
  | Action.unmapMemory => { st with memoryMapped := false }
  | Action.freeMemory => { st with stagingMemoryAlive := false }
  | Action.destroyImage => { st with stagingImageAlive := false }
  | _ => st

/-- Staging-resource state before the call: nothing exists. -/
def initialRes : ResState := ⟨false, false, false⟩

/-- Staging-resource state after executing a trace. -/
def runRes (acts : List Action) : ResState := acts.foldl stepRes initialRes

/-! ## MemoryTracker

Embedding of the `vks::MemoryTracker` class.  `VkDeviceMemory` handles
are modeled as `Nat`; the two `std::unordered_map`s become association
lists with insert-or-overwrite (`mapSet`) and erase (`mapErase`)
mirroring `operator[]` assignment and `erase`.  -/

/-- `AllocationInfo`: size, memory type index and tag of one recorded
allocation. -/
structure AllocationInfo where
  size : Nat
  memoryTypeIndex : Nat
  tag : String
deriving DecidableEq, Repr

/-- Insert-or-overwrite on an association list (`map[k] = v`): the first
entry with key `k` is replaced; if none exists the entry is appended. -/
def mapSet {α β : Type} [DecidableEq α] : List (α × β) → α → β → List (α × β)
  | [], k, v => [(k, v)]
  | (k', v') :: rest, k, v =>
      if k' = k then (k, v) :: rest else (k', v') :: mapSet rest k v

/-- Erase the first entry with key `k` from an association list
(`map.erase(it)` after a successful `find`). -/
def mapErase {α β : Type} [DecidableEq α] : List (α × β) → α → List (α × β)
  | [], _ => []
  | (k', v') :: rest, k =>
      if k' = k then rest else (k', v') :: mapErase rest k

/-- Find the first entry with key `k` (`unordered_map::find`). -/
def mapFind {α β : Type} [DecidableEq α] : List (α × β) → α → Option β
  | [], _ => none
  | (k', v') :: rest, k => if k' = k then some v' else mapFind rest k

/-- Lookup with a default, modeling `unordered_map::find` followed by a
fallback value (and `operator[]` reads of possibly absent keys). -/
def lookupD {α β : Type} [DecidableEq α] (l : List (α × β)) (k : α) (d : β) : β :=
  match mapFind l k with
  | some v => v
  | none => d

/-- The `MemoryTracker` state: live allocations keyed by memory handle,
aggregate counters, and per-tag byte counts. -/
structure MemoryTracker where
  allocations : List (Nat × AllocationInfo)
  totalAllocated : Nat
  peakAllocated : Nat
  taggedAllocations : List (String × Nat)
deriving DecidableEq, Repr

/-- The freshly constructed (or reset) tracker. -/
def MemoryTracker.initial : MemoryTracker := ⟨[], 0, 0, []⟩

/-- Lines 226–240: `recordAllocation` stores the info under the handle,
adds the size to `totalAllocated`, raises the peak if exceeded, and — for
a non-empty tag — adds the size to that tag's counter. -/
def MemoryTracker.recordAllocation (t : MemoryTracker) (memory size memoryTypeIndex : Nat)
    (tag : String) : MemoryTracker :=
  let info : AllocationInfo := ⟨size, memoryTypeIndex, tag⟩
  let t := { t with allocations := mapSet t.allocations memory info }
  let t := { t with totalAllocated := t.totalAllocated + size }
  let t := if t.totalAllocated > t.peakAllocated then
    { t with peakAllocated := t.totalAllocated } else t
  if tag ≠ "" then
    { t with taggedAllocations :=
        mapSet t.taggedAllocations tag (lookupD t.taggedAllocations tag 0 + size) }
  else t

/-- Lines 242–253: `recordFree` looks the handle up; if absent it does
nothing, otherwise it subtracts the size from `totalAllocated`, subtracts
it from the (non-empty) tag's counter, and erases the entry. -/
def MemoryTracker.recordFree (t : MemoryTracker) (memory : Nat) : MemoryTracker :=
  match mapFind t.allocations memory with
  | none => t
  | some info =>
    let t := { t with totalAllocated := t.totalAllocated - info.size }
    let t := if info.tag ≠ "" then
      { t with taggedAllocations :=
          mapSet t.taggedAllocations info.tag (lookupD t.taggedAllocations info.tag 0 - info.size) }
      else t
    { t with allocations := mapErase t.allocations memory }

/-- Lines 255–257: `getTotalAllocated`. -/
def MemoryTracker.getTotalAllocated (t : MemoryTracker) : Nat := t.totalAllocated

/-- Lines 259–261: `getPeakAllocated`. -/
def MemoryTracker.getPeakAllocated (t : MemoryTracker) : Nat := t.peakAllocated

/-- Lines 263–266: `getAllocationByTag` returns the tag's counter, or 0
when the tag has no entry. -/
def MemoryTracker.getAllocationByTag (t : MemoryTracker) (tag : String) : Nat :=
  lookupD t.taggedAllocations tag 0

/-- Lines 268–270: `getAllocationCount` is the size of the allocations
map. -/
def MemoryTracker.getAllocationCount (t : MemoryTracker) : Nat :=
  t.allocations.length

/-- Lines 272–278: `reset` clears both maps and both counters. -/
def MemoryTracker.reset (_ : MemoryTracker) : MemoryTracker :=
  MemoryTracker.initial

/-- One tracker operation of the sequences considered in the claims. -/
inductive TrackerOp where
  | alloc (memory size memoryTypeIndex : Nat) (tag : String)
  | free (memory : Nat)
  | resetOp
deriving DecidableEq, Repr

/-- Apply one operation to a tracker state. -/
def applyOp (t : MemoryTracker) : TrackerOp → MemoryTracker
  | TrackerOp.alloc m s mti tag => t.recordAllocation m s mti tag
  | TrackerOp.free m => t.recordFree m
  | TrackerOp.resetOp => t.reset

/-- Run a sequence of operations from state `t`. -/
def runOpsFrom (t : MemoryTracker) : List TrackerOp → MemoryTracker
  | [] => t
  | op :: rest => runOpsFrom (applyOp t op) rest

/-- Run a sequence of operations from the initial tracker. -/
def runOps (ops : List TrackerOp) : MemoryTracker :=
  runOpsFrom MemoryTracker.initial ops

/-- The claims' precondition on a sequence starting at state `t`: no
`recordAllocation` call uses a handle that is live at that moment. -/
def freshRunFrom (t : MemoryTracker) : List TrackerOp → Bool
  | [] => true
  | op :: rest =>
    (match op with
     | TrackerOp.alloc m _ _ _ => (mapFind t.allocations m).isNone
     | _ => true) && freshRunFrom (applyOp t op) rest

/-- The precondition from the initial tracker. -/
def freshRun (ops : List TrackerOp) : Bool :=
  freshRunFrom MemoryTracker.initial ops

/-- Sum of the sizes of the entries of an allocations list. -/
def sizesSum (l : List (Nat × AllocationInfo)) : Nat :=
  (l.map (fun p => p.2.size)).sum

/-- Sum of the sizes of the entries of an allocations list recorded with
tag `tag`. -/
def tagSizes (l : List (Nat × AllocationInfo)) (tag : String) : Nat :=
  ((l.filter (fun p => p.2.tag = tag)).map (fun p => p.2.size)).sum

/-- Sum of the sizes of the live allocations. -/
def liveSize (t : MemoryTracker) : Nat := sizesSum t.allocations

/-- Sum of the sizes of the live allocations recorded with tag `tag`. -/
def tagSize (t : MemoryTracker) (tag : String) : Nat := tagSizes t.allocations tag

/-! ## List helper lemmas

Indexing lemmas for `flatMap` over chunks of constant length, used to
address individual bytes of the serialized pixel payload. -/

theorem flatMap_length_const {α β : Type} (f : α → List β) (L : Nat)
    (hf : ∀ a, (f a).length = L) (l : List α) :
    (l.flatMap f).length = l.length * L := by
  induction l with
  | nil => simp
  | cons a t ih =>
    simp only [List.flatMap_cons, List.length_append, List.length_cons, ih, hf a,
      Nat.succ_mul]
    omega

theorem flatMap_getElem_const {α β : Type} (f : α → List β) (L : Nat)
    (hf : ∀ a, (f a).length = L) (l : List α) :
    ∀ (q r : Nat) (hq : q < l.length), r < L →
      (l.flatMap f)[q * L + r]? = (f (l.get ⟨q, hq⟩))[r]? := by
  induction l with
  | nil => intro q r hq _; simp at hq
  | cons a t ih =>
    intro q r hq hr
    cases q with
    | zero =>
      simp only [List.flatMap_cons, Nat.zero_mul, Nat.zero_add, List.get]
      rw [List.getElem?_append]
      simp [hf a, hr]
    | succ q =>
      have hq' : q < t.length := by simpa using hq
      have hidx : (q + 1) * L + r = (f a).length + (q * L + r) := by
        rw [hf a]; ring
      simp only [List.flatMap_cons, List.get]
      rw [hidx, List.getElem?_append_right (by omega)]
      have heq : (f a).length + (q * L + r) - (f a).length = q * L + r := by omega
      rw [heq]
      exact ih q r hq' hr

theorem flatMap_row_const {α β : Type} (f : α → List β) (L : Nat)
    (hf : ∀ a, (f a).length = L) (l : List α) :
    ∀ (q : Nat) (hq : q < l.length),
      ((l.flatMap f).drop (q * L)).take L = f (l.get ⟨q, hq⟩) := by
  induction l with
  | nil => intro q hq; simp at hq
  | cons a t ih =>
    intro q hq
    cases q with
    | zero =>
      simp only [List.flatMap_cons, Nat.zero_mul, List.drop_zero, List.get]
      rw [← hf a]
      simp
    | succ q =>
      have hq' : q < t.length := by simpa using hq
      have hidx : (q + 1) * L = (f a).length + q * L := by rw [hf a]; ring
      simp only [List.flatMap_cons, List.get]
      rw [hidx, List.drop_append]
      exact ih q hq'

theorem flatMap_getElem_range {β : Type} (f : Nat → List β) (L n q r : Nat)
    (hf : ∀ i, (f i).length = L) (hq : q < n) (hr : r < L) :
    ((List.range n).flatMap f)[q * L + r]? = (f q)[r]? := by
  have hq' : q < (List.range n).length := by simpa using hq
  rw [flatMap_getElem_const f L hf (List.range n) q r hq' hr]
  congr 2
  simp

theorem flatMap_row_range {β : Type} (f : Nat → List β) (L n q : Nat)
    (hf : ∀ i, (f i).length = L) (hq : q < n) :
    (((List.range n).flatMap f).drop (q * L)).take L = f q := by
  have hq' : q < (List.range n).length := by simpa using hq
  rw [flatMap_row_const f L hf (List.range n) q hq']
  congr 1
  simp

theorem flatMap_congr {α β : Type} (l : List α) (f g : α → List β)
    (h : ∀ a ∈ l, f a = g a) : l.flatMap f = l.flatMap g := by
  induction l with
  | nil => rfl
  | cons a t ih =>
    simp only [List.flatMap_cons]
    rw [h a (by simp), ih (fun b hb => h b (by simp [hb]))]

/-! ## Payload structure lemmas -/

theorem pixelBytes_length (cs : Bool) (mem : Nat → Nat) (rowBase x : Nat) :
    (pixelBytes cs mem rowBase x).length = 3 := by
  unfold pixelBytes; split <;> rfl

theorem rowBytes_length (cs : Bool) (mem : Nat → Nat) (rowBase width : Nat) :
    (rowBytes cs mem rowBase width).length = width * 3 := by
  unfold rowBytes
  rw [flatMap_length_const _ 3 (fun x => pixelBytes_length cs mem rowBase x)]
  simp

theorem payload_length (env : Env) :
    (payload env).length = env.height * (env.width * 3) := by
  unfold payload
  rw [flatMap_length_const _ (env.width * 3)
    (fun y => rowBytes_length (colorSwizzle env) env.mem _ env.width)]
  simp

theorem pixelBytes_getElem (cs : Bool) (mem : Nat → Nat) (rowBase x c : Nat)
    (hc : c < 3) :
    (pixelBytes cs mem rowBase x)[c]? =
      some (mem (rowBase + 4 * x + (if cs then 2 - c else c))) := by
  unfold pixelBytes
  interval_cases c <;> cases cs <;> simp

theorem payload_getElem (env : Env) (y x c : Nat)
    (hy : y < env.height) (hx : x < env.width) (hc : c < 3) :
    (payload env)[3 * (y * env.width + x) + c]? =
      some (env.mem (env.subresOffset + y * env.rowPitch + 4 * x +
        (if colorSwizzle env then 2 - c else c))) := by
  have hidx : 3 * (y * env.width + x) + c = y * (env.width * 3) + (x * 3 + c) := by
    ring
  have hr : x * 3 + c < env.width * 3 := by omega
  unfold payload
  rw [hidx, flatMap_getElem_range _ (env.width * 3) _ y _
    (fun i => rowBytes_length (colorSwizzle env) env.mem _ env.width) hy hr]
  unfold rowBytes
  rw [flatMap_getElem_range _ 3 _ x c
    (fun i => pixelBytes_length (colorSwizzle env) env.mem _ i) hx hc]
  exact pixelBytes_getElem _ _ _ _ _ hc

theorem payload_row (env : Env) (y : Nat) (hy : y < env.height) :
    ((payload env).drop (y * (env.width * 3))).take (env.width * 3) =
      rowBytes (colorSwizzle env) env.mem
        (env.subresOffset + y * env.rowPitch) env.width := by
  unfold payload
  exact flatMap_row_range _ (env.width * 3) _ y
    (fun i => rowBytes_length (colorSwizzle env) env.mem _ env.width) hy

/-! ## Claim theorems: Screenshot::save -/

/-- Claim C1: on the raw-copy fallback path the channel-swizzle flag is set
iff the source format is one of the known BGR family; on the accelerated
path no swizzle is ever applied; when the flag is set, the output byte at
(row, col, channel 0) equals the input byte at (row, col, channel 2) and
vice versa, channel 1 is unchanged; when it is clear the first 3 bytes of
the pixel are written verbatim; and the 4th (alpha) byte of every pixel is
never read into the output (the payload is unchanged under any change of
the memory restricted to the first 3 bytes of each pixel). -/
theorem swizzle_channel_order (env : Env) (src : Nat → Nat → Nat → Nat)
    (hmem : ∀ y, y < env.height → ∀ x, x < env.width → ∀ c, c < 4 →
      env.mem (env.subresOffset + y * env.rowPitch + 4 * x + c) = src y x c) :
    (supportsBlit env = false →
      (colorSwizzle env = true ↔ env.srcFormat ∈ formatsBGR)) ∧
    (supportsBlit env = true → colorSwizzle env = false) ∧
    (colorSwizzle env = true →
      ∀ y x, y < env.height → x < env.width →
        (payload env)[3 * (y * env.width + x)]? = some (src y x 2) ∧
        (payload env)[3 * (y * env.width + x) + 1]? = some (src y x 1) ∧
        (payload env)[3 * (y * env.width + x) + 2]? = some (src y x 0)) ∧
    (colorSwizzle env = false →
      ∀ y x c, y < env.height → x < env.width → c < 3 →
        (payload env)[3 * (y * env.width + x) + c]? = some (src y x c)) ∧
    (∀ g : Nat → Nat,
      (∀ y, y < env.height → ∀ x, x < env.width → ∀ c, c < 3 →
        g (env.subresOffset + y * env.rowPitch + 4 * x + c) =
          env.mem (env.subresOffset + y * env.rowPitch + 4 * x + c)) →
      payload { env with mem := g } = payload env) := by
  refine ⟨?_, ?_, ?_, ?_, ?_⟩
  · intro hb
    simp [colorSwizzle, hb]
  · intro hb
    simp [colorSwizzle, hb]
  · intro hcs y x hy hx
    refine ⟨?_, ?_, ?_⟩
    · have h := payload_getElem env y x 0 hy hx (by omega)
      rw [hcs] at h
      simp only [if_true] at h
      rw [hmem y hy x hx 2 (by omega)] at h
      simpa using h
    · have h := payload_getElem env y x 1 hy hx (by omega)
      rw [hcs] at h
      simp only [if_true] at h
      rw [hmem y hy x hx 1 (by omega)] at h
      exact h
    · have h := payload_getElem env y x 2 hy hx (by omega)
      rw [hcs] at h
      simp only [if_true] at h
      rw [show (2 : Nat) - 2 = 0 from rfl, hmem y hy x hx 0 (by omega)] at h
      exact h
  · intro hcs y x c hy hx hc
    have h := payload_getElem env y x c hy hx hc
    rw [hcs] at h
    simp only [if_false, Bool.false_eq_true] at h
    rw [hmem y hy x hx c (by omega)] at h
    exact h
  · intro g hg
    unfold payload
    show (List.range env.height).flatMap _ = (List.range env.height).flatMap _
    apply flatMap_congr
    intro y hy
    have hy' : y < env.height := by simpa using hy
    show rowBytes (colorSwizzle { env with mem := g }) g _ env.width =
      rowBytes (colorSwizzle env) env.mem _ env.width
    have hcs : colorSwizzle { env with mem := g } = colorSwizzle env := rfl
    rw [hcs]
    unfold rowBytes
    apply flatMap_congr
    intro x hx
    have hx' : x < env.width := by simpa using hx
    unfold pixelBytes
    have h0 := hg y hy' x hx' 0 (by omega)
    have h1 := hg y hy' x hx' 1 (by omega)
    have h2 := hg y hy' x hx' 2 (by omega)
    simp only [Nat.add_zero] at h0
    cases colorSwizzle env <;> simp [h0, h1, h2]

/-- Claim C2: for positive width and height, a successful call produces a
file equal to the header (magic token `P6`, width, height, max sample
value 255) followed by a payload of exactly width·height·3 bytes whose
rows appear top-to-bottom (row `y` of the file is the encoding of source
row `y`). -/
theorem save_output_format (env : Env) (hw : 0 < env.width) (hh : 0 < env.height)
    (hopen : env.fileOpens = true) :
    (save env).success = true ∧
    (save env).file = some (headerBytes env.width env.height ++ payload env) ∧
    (payload env).length = env.width * env.height * 3 ∧
    ∀ y, y < env.height →
      ((payload env).drop (y * (env.width * 3))).take (env.width * 3) =
        rowBytes (colorSwizzle env) env.mem
          (env.subresOffset + y * env.rowPitch) env.width := by
  refine ⟨?_, ?_, ?_, fun y hy => payload_row env y hy⟩
  · simp [save, hopen]
  · simp [save, hopen]
  · rw [payload_length]; ring

/-- Claim C3: when the reported row stride exceeds width·4 bytes, each of
the `height` output rows still has exactly width·3 bytes, and every output
byte is read from within the first width·4 bytes of its source row (the
row base advancing by the reported stride), so staging-memory padding
never reaches the output. -/
theorem row_stride_no_padding (env : Env) (hpitch : env.width * 4 < env.rowPitch) :
    (payload env).length = env.height * (env.width * 3) ∧
    ∀ y x c, y < env.height → x < env.width → c < 3 →
      ∃ k, k < env.width * 4 ∧
        (payload env)[3 * (y * env.width + x) + c]? =
          some (env.mem (env.subresOffset + y * env.rowPitch + k)) := by
  refine ⟨payload_length env, fun y x c hy hx hc => ?_⟩
  refine ⟨4 * x + (if colorSwizzle env then 2 - c else c), ?_, ?_⟩
  · split <;> omega
  · have hassoc : env.subresOffset + y * env.rowPitch +
        (4 * x + (if colorSwizzle env then 2 - c else c)) =
        env.subresOffset + y * env.rowPitch + 4 * x +
        (if colorSwizzle env then 2 - c else c) := by
      ring
    rw [hassoc]
    exact payload_getElem env y x c hy hx hc

/-- Claim C4: the capability decision is true iff the source format has
blit-source support under optimal tiling and `R8G8B8A8_UNORM` has
blit-destination support under linear tiling; when it is false the
recorded transfer is the raw image copy, and when it is true it is the
format-converting blit. -/
theorem supports_blit_gate (env : Env) :
    (supportsBlit env = true ↔
      ((env.formatProps env.srcFormat).optimalTilingFeatures &&&
          VK_FORMAT_FEATURE_BLIT_SRC_BIT ≠ 0 ∧
        (env.formatProps VkFormat.R8G8B8A8_UNORM).linearTilingFeatures &&&
          VK_FORMAT_FEATURE_BLIT_DST_BIT ≠ 0)) ∧
    (supportsBlit env = false →
      (recordedCommands env)[2]? = some (Command.copyImage env.width env.height)) ∧
    (supportsBlit env = true →
      (recordedCommands env)[2]? = some (Command.blitImage env.width env.height)) := by
  by_cases h1 : (env.formatProps env.srcFormat).optimalTilingFeatures &&&
      VK_FORMAT_FEATURE_BLIT_SRC_BIT = 0 <;>
  by_cases h2 : (env.formatProps VkFormat.R8G8B8A8_UNORM).linearTilingFeatures &&&
      VK_FORMAT_FEATURE_BLIT_DST_BIT = 0 <;>
  simp [supportsBlit, recordedCommands, h1, h2]

/-- Claim C5: the recorded one-shot command sequence is, in strict order:
staging undefined→transfer-dst barrier, source presentable→transfer-src
barrier, the pixel transfer (blit or copy), staging→general barrier, and a
final barrier returning the source to its presentable layout with
generic-memory-read access — so that replaying the sequence over the
source image's (layout, access) state ends exactly where it started, and
the staging image ends in general layout. -/
theorem barrier_sequence_restores_source (env : Env) :
    recordedCommands env =
      [Command.imageMemoryBarrier ImgRef.staging 0 VK_ACCESS_TRANSFER_WRITE_BIT
          VkImageLayout.undefined VkImageLayout.transferDstOptimal,
        Command.imageMemoryBarrier ImgRef.source VK_ACCESS_MEMORY_READ_BIT
          VK_ACCESS_TRANSFER_READ_BIT VkImageLayout.presentSrcKHR
          VkImageLayout.transferSrcOptimal,
        (if supportsBlit env then Command.blitImage env.width env.height
         else Command.copyImage env.width env.height),
        Command.imageMemoryBarrier ImgRef.staging VK_ACCESS_TRANSFER_WRITE_BIT
          VK_ACCESS_MEMORY_READ_BIT VkImageLayout.transferDstOptimal
          VkImageLayout.general,
        Command.imageMemoryBarrier ImgRef.source VK_ACCESS_TRANSFER_READ_BIT
          VK_ACCESS_MEMORY_READ_BIT VkImageLayout.transferSrcOptimal
          VkImageLayout.presentSrcKHR] ∧
    trackImg ImgRef.source
        (VkImageLayout.presentSrcKHR, VK_ACCESS_MEMORY_READ_BIT)
        (recordedCommands env) =
      (VkImageLayout.presentSrcKHR, VK_ACCESS_MEMORY_READ_BIT) ∧
    trackImg ImgRef.staging (VkImageLayout.undefined, 0) (recordedCommands env) =
      (VkImageLayout.general, VK_ACCESS_MEMORY_READ_BIT) := by
  refine ⟨rfl, ?_, ?_⟩ <;>
  · cases h : supportsBlit env <;>
      simp [trackImg, recordedCommands, applyCommandToImg, h]

/-- Claim C6: on every exit path the staging memory is unmapped and freed
and the staging image destroyed before `save` returns: the resource state
computed over the full action trace is dead on all three coordinates, and
the trace does contain the creation, mapping, and release actions. -/
theorem staging_resources_released (env : Env) :
    runRes (save env).trace =
      { stagingImageAlive := false, stagingMemoryAlive := false,
        memoryMapped := false } ∧
    Action.createImage ∈ (save env).trace ∧
    Action.allocateMemory ∈ (save env).trace ∧
    Action.mapMemory ∈ (save env).trace ∧
    Action.unmapMemory ∈ (save env).trace ∧
    Action.freeMemory ∈ (save env).trace ∧
    Action.destroyImage ∈ (save env).trace := by
  cases ho : env.fileOpens <;> cases hb : supportsBlit env <;>
    simp [save, runRes, stepRes, initialRes, recordedCommands, ho, hb]

/-- Claim C7: with all device operations succeeding, `save` returns false
iff the output file cannot be opened; on that path no file content is
produced, no write action reaches any file, and the staging resources are
still released; otherwise it returns true with the encoded file. -/
theorem failure_iff_file_not_opened (env : Env) :
    ((save env).success = false ↔ env.fileOpens = false) ∧
    (env.fileOpens = false →
      (save env).file = none ∧
      (∀ bs, Action.writeFile bs ∉ (save env).trace) ∧
      runRes (save env).trace =
        { stagingImageAlive := false, stagingMemoryAlive := false,
          memoryMapped := false }) ∧
    (env.fileOpens = true →
      (save env).success = true ∧
      (save env).file = some (headerBytes env.width env.height ++ payload env)) := by
  cases ho : env.fileOpens <;> cases hb : supportsBlit env <;>
    simp [save, runRes, stepRes, initialRes, recordedCommands, ho, hb]

/-- Claim C8: `save` is deterministic in its observable output — two calls
with identical parameters, source contents, and device-reported values
(i.e. equal environments) produce byte-identical files, return values and
traces. -/
theorem save_deterministic (e1 e2 : Env) (h : e1 = e2) :
    (save e1).file = (save e2).file ∧
    (save e1).success = (save e2).success ∧
    (save e1).trace = (save e2).trace := by
  subst h
  exact ⟨rfl, rfl, rfl⟩

/-! ## Witness environments and witnesses -/

/-- Concrete fallback-path environment: 2×2 capture, row pitch 12
(strictly greater than width·4 = 8), BGR source format, a device without
blit support, openable output file. -/
def envW : Env where
  formatProps := fun _ => ⟨0, 0, 0⟩
  srcFormat := VkFormat.B8G8R8A8_UNORM
  width := 2
  height := 2
  subresOffset := 0
  rowPitch := 12
  mem := fun i => i % 256
  fileOpens := true

/-- The raw source pixels matching `envW.mem` under the raw-copy layout. -/
def srcW : Nat → Nat → Nat → Nat := fun y x c => (y * 12 + 4 * x + c) % 256

/-- `envW` with an output path that cannot be opened. -/
def envWFail : Env := { envW with fileOpens := false }

theorem swizzle_channel_order_witness :
    (payload envW)[3 * (0 * envW.width + 0)]? = some (srcW 0 0 2) :=
  ((((swizzle_channel_order envW srcW (by decide)).2).2).1 (by decide)
    0 0 (by decide) (by decide)).1

theorem save_output_format_witness :
    (save envW).file = some (headerBytes envW.width envW.height ++ payload envW) :=
  ((save_output_format envW (by decide) (by decide) (by decide)).2).1

theorem row_stride_no_padding_witness :
    (payload envW).length = envW.height * (envW.width * 3) :=
  (row_stride_no_padding envW (by decide)).1

theorem supports_blit_gate_witness :
    (recordedCommands envW)[2]? = some (Command.copyImage envW.width envW.height) :=
  ((supports_blit_gate envW).2).1 (by decide)

theorem barrier_sequence_witness :
    trackImg ImgRef.source
        (VkImageLayout.presentSrcKHR, VK_ACCESS_MEMORY_READ_BIT)
        (recordedCommands envW) =
      (VkImageLayout.presentSrcKHR, VK_ACCESS_MEMORY_READ_BIT) :=
  ((barrier_sequence_restores_source envW).2).1

theorem staging_resources_released_witness :
    runRes (save envWFail).trace =
      { stagingImageAlive := false, stagingMemoryAlive := false,
        memoryMapped := false } :=
  (staging_resources_released envWFail).1

theorem failure_iff_file_not_opened_witness :
    (save envWFail).success = false ∧ (save envWFail).file = none :=
  ⟨(failure_iff_file_not_opened envWFail).1.mpr rfl,
    (((failure_iff_file_not_opened envWFail).2).1 rfl).1⟩

theorem save_deterministic_witness :
    (save envW).file = (save envW).file ∧
    (save envW).success = (save envW).success ∧
    (save envW).trace = (save envW).trace :=
  save_deterministic envW envW rfl

/-! ## Association-list lemmas for the MemoryTracker -/

theorem mapFind_mapSet_self {α β : Type} [DecidableEq α]
    (l : List (α × β)) (k : α) (v : β) :
    mapFind (mapSet l k v) k = some v := by
  induction l with
  | nil => simp [mapSet, mapFind]
  | cons p rest ih =>
    obtain ⟨k2, v2⟩ := p
    by_cases hk : k2 = k
    · simp [mapSet, hk, mapFind]
    · simp [mapSet, hk, mapFind, ih]

theorem mapFind_mapSet_ne {α β : Type} [DecidableEq α]
    (l : List (α × β)) (k k2 : α) (v : β) (h : k2 ≠ k) :
    mapFind (mapSet l k v) k2 = mapFind l k2 := by
  induction l with
  | nil => simp [mapSet, mapFind, Ne.symm h]
  | cons p rest ih =>
    obtain ⟨k3, v3⟩ := p
    by_cases hk : k3 = k
    · subst hk
      simp [mapSet, mapFind, Ne.symm h]
    · by_cases hk2 : k3 = k2 <;> simp [mapSet, mapFind, hk, hk2, ih, h]

theorem lookupD_mapSet_self {α β : Type} [DecidableEq α]
    (l : List (α × β)) (k : α) (v d : β) :
    lookupD (mapSet l k v) k d = v := by
  unfold lookupD
  rw [mapFind_mapSet_self]

theorem lookupD_mapSet_ne {α β : Type} [DecidableEq α]
    (l : List (α × β)) (k k2 : α) (v d : β) (h : k2 ≠ k) :
    lookupD (mapSet l k v) k2 d = lookupD l k2 d := by
  unfold lookupD
  rw [mapFind_mapSet_ne l k k2 v h]

theorem mapSet_of_find_none {α β : Type} [DecidableEq α]
    (l : List (α × β)) (k : α) (v : β) (h : mapFind l k = none) :
    mapSet l k v = l ++ [(k, v)] := by
  induction l with
  | nil => rfl
  | cons p rest ih =>
    obtain ⟨k2, v2⟩ := p
    by_cases hk : k2 = k
    · simp [mapFind, hk] at h
    · simp only [mapFind, if_neg hk] at h
      simp [mapSet, hk, ih h]

theorem sizesSum_cons (p : Nat × AllocationInfo) (l : List (Nat × AllocationInfo)) :
    sizesSum (p :: l) = p.2.size + sizesSum l := by
  simp [sizesSum]

theorem sizesSum_append (l : List (Nat × AllocationInfo)) (m : Nat)
    (info : AllocationInfo) :
    sizesSum (l ++ [(m, info)]) = sizesSum l + info.size := by
  simp [sizesSum]

theorem tagSizes_cons (p : Nat × AllocationInfo) (l : List (Nat × AllocationInfo))
    (tg : String) :
    tagSizes (p :: l) tg = (if p.2.tag = tg then p.2.size else 0) + tagSizes l tg := by
  by_cases h : p.2.tag = tg <;> simp [tagSizes, List.filter_cons, h]

theorem tagSizes_append (l : List (Nat × AllocationInfo)) (m : Nat)
    (info : AllocationInfo) (tg : String) :
    tagSizes (l ++ [(m, info)]) tg =
      tagSizes l tg + (if info.tag = tg then info.size else 0) := by
  by_cases h : info.tag = tg <;> simp [tagSizes, List.filter_append, h]

theorem sizesSum_mapErase (l : List (Nat × AllocationInfo)) (m : Nat)
    (info : AllocationInfo) (h : mapFind l m = some info) :
    info.size ≤ sizesSum l ∧ sizesSum (mapErase l m) = sizesSum l - info.size := by
  induction l with
  | nil => simp [mapFind] at h
  | cons p rest ih =>
    obtain ⟨k, v⟩ := p
    by_cases hk : k = m
    · simp only [mapFind, if_pos hk, Option.some.injEq] at h
      subst h
      simp only [mapErase, if_pos hk]
      rw [sizesSum_cons]
      dsimp only
      constructor <;> omega
    · simp only [mapFind, if_neg hk] at h
      obtain ⟨hle, heq⟩ := ih h
      simp only [mapErase, if_neg hk]
      rw [sizesSum_cons, sizesSum_cons, heq]
      constructor <;> omega

theorem tagSizes_mapErase (l : List (Nat × AllocationInfo)) (m : Nat)
    (info : AllocationInfo) (tg : String) (h : mapFind l m = some info) :
    (info.tag = tg → info.size ≤ tagSizes l tg ∧
      tagSizes (mapErase l m) tg = tagSizes l tg - info.size) ∧
    (info.tag ≠ tg → tagSizes (mapErase l m) tg = tagSizes l tg) := by
  induction l with
  | nil => simp [mapFind] at h
  | cons p rest ih =>
    obtain ⟨k, v⟩ := p
    by_cases hk : k = m
    · simp only [mapFind, if_pos hk, Option.some.injEq] at h
      subst h
      simp only [mapErase, if_pos hk]
      constructor
      · intro htag
        rw [tagSizes_cons, if_pos htag]
        dsimp only
        constructor <;> omega
      · intro htag
        rw [tagSizes_cons, if_neg htag]
        simp
    · simp only [mapFind, if_neg hk] at h
      obtain ⟨ih1, ih2⟩ := ih h
      simp only [mapErase, if_neg hk]
      constructor
      · intro htag
        obtain ⟨hle, heq⟩ := ih1 htag
        rw [tagSizes_cons, tagSizes_cons, heq]
        by_cases hv : v.tag = tg <;> simp [hv] <;> omega
      · intro htag
        rw [tagSizes_cons, tagSizes_cons, ih2 htag]

/-! ## MemoryTracker component lemmas -/

theorem recordAllocation_allocations (t : MemoryTracker) (m s mti : Nat)
    (tag : String) :
    (t.recordAllocation m s mti tag).allocations =
      mapSet t.allocations m ⟨s, mti, tag⟩ := by
  simp only [MemoryTracker.recordAllocation]
  split <;> split <;> rfl

theorem recordAllocation_total (t : MemoryTracker) (m s mti : Nat) (tag : String) :
    (t.recordAllocation m s mti tag).totalAllocated = t.totalAllocated + s := by
  simp only [MemoryTracker.recordAllocation]
  split <;> split <;> rfl

theorem recordAllocation_tagged (t : MemoryTracker) (m s mti : Nat) (tag : String) :
    (t.recordAllocation m s mti tag).taggedAllocations =
      if tag ≠ "" then
        mapSet t.taggedAllocations tag (lookupD t.taggedAllocations tag 0 + s)
      else t.taggedAllocations := by
  simp only [MemoryTracker.recordAllocation]
  split <;> split <;> rfl

theorem recordFree_not_found (t : MemoryTracker) (m : Nat)
    (h : mapFind t.allocations m = none) : t.recordFree m = t := by
  unfold MemoryTracker.recordFree
  rw [h]

theorem recordFree_found (t : MemoryTracker) (m : Nat) (info : AllocationInfo)
    (h : mapFind t.allocations m = some info) :
    (t.recordFree m).allocations = mapErase t.allocations m ∧
    (t.recordFree m).totalAllocated = t.totalAllocated - info.size ∧
    (t.recordFree m).peakAllocated = t.peakAllocated ∧
    (t.recordFree m).taggedAllocations =
      (if info.tag ≠ "" then
        mapSet t.taggedAllocations info.tag
          (lookupD t.taggedAllocations info.tag 0 - info.size)
       else t.taggedAllocations) := by
  simp only [MemoryTracker.recordFree, h]
  refine ⟨?_, ?_, ?_, ?_⟩ <;> (split <;> rfl)

/-! ## The tracker invariant -/

/-- The invariant maintained by fresh-handle operation sequences:
`totalAllocated` is the sum of the live sizes and every non-empty tag's
counter is the sum of the live sizes recorded with that tag. -/
def TrackerOK (t : MemoryTracker) : Prop :=
  t.totalAllocated = liveSize t ∧
  ∀ tg, tg ≠ "" → t.getAllocationByTag tg = tagSize t tg

theorem trackerOK_initial : TrackerOK MemoryTracker.initial :=
  ⟨rfl, fun _ _ => rfl⟩

theorem trackerOK_alloc (t : MemoryTracker) (m s mti : Nat) (tag : String)
    (hok : TrackerOK t) (hfresh : mapFind t.allocations m = none) :
    TrackerOK (t.recordAllocation m s mti tag) := by
  obtain ⟨htotal, htag⟩ := hok
  have htotalL : t.totalAllocated = sizesSum t.allocations := htotal
  have htagL : ∀ tg, tg ≠ "" →
    lookupD t.taggedAllocations tg 0 = tagSizes t.allocations tg := htag
  constructor
  · show (t.recordAllocation m s mti tag).totalAllocated =
      sizesSum (t.recordAllocation m s mti tag).allocations
    rw [recordAllocation_total, recordAllocation_allocations,
      mapSet_of_find_none _ _ _ hfresh, sizesSum_append, htotalL]
  · intro tg htg
    show lookupD (t.recordAllocation m s mti tag).taggedAllocations tg 0 =
      tagSizes (t.recordAllocation m s mti tag).allocations tg
    rw [recordAllocation_tagged, recordAllocation_allocations,
      mapSet_of_find_none _ _ _ hfresh, tagSizes_append]
    by_cases hempty : tag = ""
    · rw [if_neg (by simp [hempty])]
      have hne : ¬((⟨s, mti, tag⟩ : AllocationInfo).tag = tg) :=
        fun hh => htg (hh ▸ hempty)
      rw [if_neg hne, Nat.add_zero]
      exact htagL tg htg
    · rw [if_pos (by simp [hempty])]
      by_cases heq : tag = tg
      · subst heq
        rw [lookupD_mapSet_self, htagL tag hempty]
        simp
      · rw [lookupD_mapSet_ne _ _ _ _ _ (fun hh => heq hh.symm)]
        have hne : ¬((⟨s, mti, tag⟩ : AllocationInfo).tag = tg) := heq
        rw [if_neg hne, Nat.add_zero]
        exact htagL tg htg

theorem trackerOK_free (t : MemoryTracker) (m : Nat) (hok : TrackerOK t) :
    TrackerOK (t.recordFree m) := by
  obtain ⟨htotal, htag⟩ := hok
  cases hfind : mapFind t.allocations m with
  | none =>
    rw [recordFree_not_found t m hfind]
    exact ⟨htotal, htag⟩
  | some info =>
    have htotalL : t.totalAllocated = sizesSum t.allocations := htotal
    have htagL : ∀ tg, tg ≠ "" →
      lookupD t.taggedAllocations tg 0 = tagSizes t.allocations tg := htag
    obtain ⟨hallocs, htot, _, htagged⟩ := recordFree_found t m info hfind
    obtain ⟨hsle, hserase⟩ := sizesSum_mapErase t.allocations m info hfind
    constructor
    · show (t.recordFree m).totalAllocated = sizesSum (t.recordFree m).allocations
      rw [htot, hallocs, hserase, htotalL]
    · intro tg htg
      show lookupD (t.recordFree m).taggedAllocations tg 0 =
        tagSizes (t.recordFree m).allocations tg
      rw [htagged, hallocs]
      by_cases htaginfo : info.tag = tg
      · have hempty : info.tag ≠ "" := by rw [htaginfo]; exact htg
        rw [if_pos hempty]
        obtain ⟨hle, heq⟩ :=
          (tagSizes_mapErase t.allocations m info tg hfind).1 htaginfo
        rw [htaginfo, lookupD_mapSet_self, heq, htagL tg htg]
      · have herase := (tagSizes_mapErase t.allocations m info tg hfind).2 htaginfo
        by_cases hempty : info.tag ≠ ""
        · rw [if_pos hempty,
            lookupD_mapSet_ne _ _ _ _ _ (fun hh => htaginfo hh.symm),
            htagL tg htg, herase]
        · rw [if_neg hempty, htagL tg htg, herase]

theorem trackerOK_runFrom (ops : List TrackerOp) :
    ∀ t, TrackerOK t → freshRunFrom t ops = true →
      TrackerOK (runOpsFrom t ops) := by
  induction ops with
  | nil => intro t hok _; exact hok
  | cons op rest ih =>
    intro t hok hfresh
    cases op with
    | alloc m s mti tag =>
      simp only [freshRunFrom, Bool.and_eq_true, Option.isNone_iff_eq_none] at hfresh
      exact ih _ (trackerOK_alloc t m s mti tag hok hfresh.1) hfresh.2
    | free m =>
      simp only [freshRunFrom, Bool.true_and] at hfresh
      exact ih _ (trackerOK_free t m hok) hfresh
    | resetOp =>
      simp only [freshRunFrom, Bool.true_and] at hfresh
      exact ih _ trackerOK_initial hfresh

/-! ## Claim theorems: MemoryTracker -/

/-- Claim C9 counterexample: the claim quantifies over every tag, but an
allocation recorded with the empty tag (the default argument) is live with
size 5 while `getAllocationByTag ""` returns 0, on a sequence satisfying
the claim's fresh-handle precondition. -/
theorem tracker_tag_empty_counterexample :
    freshRun [TrackerOp.alloc 1 5 0 ""] = true ∧
    (runOps [TrackerOp.alloc 1 5 0 ""]).getAllocationByTag "" = 0 ∧
    tagSize (runOps [TrackerOp.alloc 1 5 0 ""]) "" = 5 ∧
    (runOps [TrackerOp.alloc 1 5 0 ""]).getAllocationByTag "" ≠
      tagSize (runOps [TrackerOp.alloc 1 5 0 ""]) "" := by
  refine ⟨rfl, rfl, rfl, by decide⟩

/-- Claim C9 (amended): for every sequence of tracker operations in which
`recordAllocation` is never called with a live handle, after the sequence
`getTotalAllocated` equals the sum of the sizes of the live allocations,
`getAllocationCount` equals the number of live allocations, and for every
NON-EMPTY tag `getAllocationByTag` equals the sum of the sizes of the live
allocations recorded with that tag (allocations recorded with the empty
tag are not tracked per-tag). -/
theorem tracker_invariant (ops : List TrackerOp) (hfresh : freshRun ops = true) :
    (runOps ops).getTotalAllocated = liveSize (runOps ops) ∧
    (runOps ops).getAllocationCount = (runOps ops).allocations.length ∧
    ∀ tg, tg ≠ "" → (runOps ops).getAllocationByTag tg = tagSize (runOps ops) tg := by
  have h := trackerOK_runFrom ops MemoryTracker.initial trackerOK_initial hfresh
  exact ⟨h.1, rfl, h.2⟩

/-- A concrete fresh-handle operation sequence for the invariant witness. -/
def opsW : List TrackerOp :=
  [TrackerOp.alloc 1 5 0 "tex", TrackerOp.alloc 2 7 1 "buf",
   TrackerOp.free 1, TrackerOp.alloc 3 2 0 "tex", TrackerOp.free 9]

theorem tracker_invariant_witness :
    (runOps opsW).getTotalAllocated = liveSize (runOps opsW) :=
  (tracker_invariant opsW (by decide)).1

/-- Claim C10: `recordFree` with a handle that has no live allocation
leaves the whole tracker state unchanged — the result equals the input
state, and in particular `totalAllocated`, `peakAllocated`, the
allocations map and every per-tag counter are exactly as before. -/
theorem recordFree_absent_is_noop (t : MemoryTracker) (m : Nat)
    (h : mapFind t.allocations m = none) :
    t.recordFree m = t ∧
    (t.recordFree m).totalAllocated = t.totalAllocated ∧
    (t.recordFree m).peakAllocated = t.peakAllocated ∧
    (t.recordFree m).allocations = t.allocations ∧
    ∀ tg, (t.recordFree m).getAllocationByTag tg = t.getAllocationByTag tg := by
  have he := recordFree_not_found t m h
  exact ⟨he, by rw [he], by rw [he], by rw [he], fun tg => by rw [he]⟩

theorem recordFree_absent_witness :
    (runOps opsW).recordFree 4 = runOps opsW :=
  (recordFree_absent_is_noop (runOps opsW) 4 (by decide)).1

end VulkanScreenshot
